import Mathlib

/-!
Verification of the parsing and KPI layer of the Instacart dashboard
(`src/app.py`).

The dashboard's computational core consists of:
  * `parse_key_value_string` — decodes `"label:count;label:count;..."`
    cells into a frequency table (app.py lines 144-150);
  * `parse_stats_string` — decodes free-text statistic sentences such as
    `"평균 12.3, 최소 1, 최대 30 일"` into an average/min/max/unit record
    (app.py lines 152-158);
  * `load_data` — column normalization of the loaded CSV report
    (app.py lines 129-142);
  * the KPI lines: `max_dow`/`max_hour` (idxmax, lines 473-474),
    `produce_pct` (lines 477-479), `top_aisle`/`top_aisle_pct`
    (lines 482-483).

Embedding conventions: pandas cells that may be NaN are `Option`;
a Python exception escaping a function is `Option.none` / `Except.error`;
Python floats are modelled exactly as rationals (`ℚ`); strings are worked
on as `List Char`, matching Python's per-character operations.
-/

namespace Dashboard

/-- A decoded frequency table: ordered (항목 = label, 빈도 = count) rows. -/
abbrev Table := List (String × Nat)

/-- Python `str.strip()` / whitespace test (`\s` for the ASCII fragment). -/
def isSpace (c : Char) : Bool := c.isWhitespace

/-- Python `str.strip()`: drop whitespace from both ends. -/
def pyStrip (l : List Char) : List Char :=
  ((l.dropWhile isSpace).reverse.dropWhile isSpace).reverse

/-- Python `s.split(sep)` for a one-character separator, no maxsplit:
`"".split(c) = [""]`, and every separator occurrence opens a new field. -/
def splitOnChar (sep : Char) : List Char → List (List Char)
  | [] => [[]]
  | c :: rest =>
    if c == sep then [] :: splitOnChar sep rest
    else
      match splitOnChar sep rest with
      | [] => [[c]]
      | h :: t => (c :: h) :: t

/-- Joining with a one-character separator (inverse of `splitOnChar`). -/
def joinSep (sep : Char) : List (List Char) → List Char
  | [] => []
  | [x] => x
  | x :: xs => x ++ sep :: joinSep sep xs

/-- Decimal value of a digit string, as computed by Python `int` on an
all-digit string (left fold, most significant digit first). -/
def digitsVal (l : List Char) : Nat :=
  l.foldl (fun a c => 10 * a + (c.toNat - 48)) 0

/-- The list comprehensions of app.py lines 147-148 evaluate every clause
and any `IndexError`/`ValueError` aborts the whole expression; `mapOption`
models that all-or-nothing evaluation. -/
def mapOption (f : α → Option β) : List α → Option (List β)
  | [] => some []
  | a :: as =>
    match f a, mapOption f as with
    | some b, some bs => some (b :: bs)
    | _, _ => none

/-- One clause of `parse_key_value_string` (app.py lines 147-148):
`item = clause.split(':')`, label `item[0].strip()`, count
`int(re.sub(r'[^0-9]', '', item[1]))`.  `none` models the `IndexError`
(no second field) or `ValueError` (`int('')`) raised for this clause. -/
def parseClause (clause : List Char) : Option (String × Nat) :=
  match splitOnChar ':' clause with
  | f0 :: f1 :: _ =>
    let ds := f1.filter Char.isDigit
    if ds.isEmpty then none
    else some (⟨pyStrip f0⟩, digitsVal ds)
  | _ => none

/-- app.py lines 144-150.  `none` input models a NaN cell (`pd.isna`).
Any clause failure is caught by the `except (IndexError, ValueError)`
and the empty table (no rows) is returned. -/
def parse_key_value_string (s : Option String) : Table :=
  match s with
  | none => []
  | some str =>
    match mapOption parseClause (splitOnChar ';' str.data) with
    | some t => t
    | none => []

/-- The record returned by `parse_stats_string`
(keys 평균 = average, 최소 = minimum, 최대 = maximum, 단위 = unit). -/
structure RangeStats where
  average : ℚ
  minimum : Nat
  maximum : Nat
  unit : String
deriving DecidableEq

/-- A character matched by the regex class `[\d\.]`. -/
def isNumChar (c : Char) : Bool := c.isDigit || c == '.'

/-- Decidable check that `pat` begins the list `l`. -/
def leadsWith : List Char → List Char → Bool
  | [], _ => true
  | _ :: _, [] => false
  | a :: as, b :: bs => a == b && leadsWith as bs

/-- `re.search(tok + r"([\d\.]+)", s)`: leftmost position where the
literal token is followed by at least one `[\d.]` character; the group is
the maximal such run. `none` models a failed search. -/
def searchNum (tok : List Char) : List Char → Option (List Char)
  | [] => none
  | c :: rest =>
    if leadsWith tok (c :: rest) then
      let run := ((c :: rest).drop tok.length).takeWhile isNumChar
      if run.isEmpty then searchNum tok rest else some run
    else searchNum tok rest

/-- `re.search(r"([\S]+)\s*$", s)`: the last whitespace-delimited token of
the sentence, when one exists. -/
def lastToken (l : List Char) : Option (List Char) :=
  let r := l.reverse.dropWhile isSpace
  let t := r.takeWhile (fun c => !isSpace c)
  if t.isEmpty then none else some t.reverse

/-- Python `str.strip(',')`: commas dropped from both ends. -/
def stripCommas (t : List Char) : List Char :=
  ((t.dropWhile (fun c => c == ',')).reverse.dropWhile (fun c => c == ',')).reverse

/-- Python `float(g)` succeeds on a `[\d.]+` group iff the group has at
most one dot and at least one digit (`float(".")` and `float("1.2.3")`
raise `ValueError`). -/
def validFloat (g : List Char) : Bool :=
  decide (g.countP (fun c => c == '.') ≤ 1) && g.any Char.isDigit

/-- Exact value of a valid decimal literal (integer part plus fractional
part; Python's binary rounding is abstracted to the exact rational). -/
def floatVal (g : List Char) : ℚ :=
  let ip := g.takeWhile (fun c => !(c == '.'))
  let fp := (g.dropWhile (fun c => !(c == '.'))).drop 1
  (digitsVal ip : ℚ) + (digitsVal fp : ℚ) / (10 : ℚ) ^ fp.length

/-- `float(avg.group(1)) if avg else 0` (app.py line 158): a missing
match defaults to `0`; a matched but malformed group raises (`none`). -/
def floatOfGroup : Option (List Char) → Option ℚ
  | none => some 0
  | some g => if validFloat g then some (floatVal g) else none

/-- `int(min_val.group(1)) if min_val else 0` (app.py line 158): Python
`int` accepts the group iff it is all digits (`int("1.5")` raises). -/
def natOfGroup : Option (List Char) → Option Nat
  | none => some 0
  | some g => if g.all Char.isDigit then some (digitsVal g) else none

/-- The regex group for `평균 ([\d\.]+)` (average), app.py line 154. -/
def avgGroup (cs : List Char) : Option (List Char) := searchNum "평균 ".data cs

/-- The regex group for `최소 ([\d\.]+)` (minimum), app.py line 155. -/
def minGroup (cs : List Char) : Option (List Char) := searchNum "최소 ".data cs

/-- The regex group for `최대 ([\d\.]+)` (maximum), app.py line 156. -/
def maxGroup (cs : List Char) : Option (List Char) := searchNum "최대 ".data cs

/-- `unit.group(1).strip(',') if unit else ''` (app.py lines 157-158). -/
def unitOfString (cs : List Char) : String :=
  match lastToken cs with
  | none => ""
  | some t => ⟨stripCommas t⟩

/-- app.py lines 152-158.  `none` input models a NaN cell.  A `none`
result models a `ValueError` escaping the function (there is no
`try`/`except` here, unlike `parse_key_value_string`). -/
def parse_stats_string (s : Option String) : Option RangeStats :=
  match s with
  | none => some ⟨0, 0, 0, ""⟩
  | some str =>
    match floatOfGroup (avgGroup str.data), natOfGroup (minGroup str.data),
          natOfGroup (maxGroup str.data) with
    | some a, some mn, some mx => some ⟨a, mn, mx, unitOfString str.data⟩
    | _, _, _ => none

/-- The claim's reading of the frequency-list grammar, for comparison with
the implementation.  Modelled from the spec: split each clause on the
FIRST `:` only and extract the digits of the ENTIRE remainder after it. -/
def parseClauseClaimed (clause : List Char) : Option (String × Nat) :=
  if clause.contains ':' then
    let f0 := clause.takeWhile (fun c => !(c == ':'))
    let rest := (clause.dropWhile (fun c => !(c == ':'))).tail
    let ds := rest.filter Char.isDigit
    if ds.isEmpty then none
    else some (⟨pyStrip f0⟩, digitsVal ds)
  else none

/-- Modelled from the spec: `parse_key_value_string` under the claim's
first-colon-split reading of each clause. -/
def parse_key_value_claimed (s : String) : Table :=
  match mapOption parseClauseClaimed (splitOnChar ';' s.data) with
  | some t => t
  | none => []

/-- `df['빈도'].sum()`: total of the counts of a table. -/
def tableTotal (t : Table) : Nat := (t.map Prod.snd).sum

/-- `df.loc[df['빈도'].idxmax()]` on a non-empty table: the entry at the
first index attaining the maximal count (pandas `idxmax` returns the
first occurrence of the maximum). -/
def firstMax : Table → Option (String × Nat)
  | [] => none
  | e :: rest =>
    match firstMax rest with
    | none => some e
    | some m => if e.2 < m.2 then some m else some e

/-- app.py line 473: the peak day-of-week entry, `{'항목': 'N/A', '빈도': 0}`
for an empty table. -/
def max_dow (t : Table) : String × Nat := (firstMax t).getD ("N/A", 0)

/-- app.py line 474: the peak hour entry, same computation as `max_dow`. -/
def max_hour (t : Table) : String × Nat := (firstMax t).getD ("N/A", 0)

/-- Specification predicate: `x` has a maximal count within `t` (used to
state that the aggregator returns the first such pair in table order). -/
def isPeak (t : Table) (x : String × Nat) : Bool :=
  t.all (fun y => decide (y.2 ≤ x.2))

/-- `dept_df[dept_df['항목'] == 'produce']['빈도'].sum()` (app.py 479). -/
def produceSum (t : Table) : Nat :=
  ((t.filter (fun p => p.1 == "produce")).map Prod.snd).sum

/-- app.py lines 477-479: share of the `produce` department, guarded by
non-emptiness, membership of the label, and a positive total. -/
def produce_pct (t : Table) : ℚ :=
  if !t.isEmpty && t.any (fun p => p.1 == "produce") && decide (0 < tableTotal t) then
    (produceSum t : ℚ) / (tableTotal t : ℚ) * 100
  else 0

/-- app.py line 482: `aisle_df.iloc[0]` — the FIRST row of the parsed
aisle table (not the row of maximal count), `N/A`/0 when empty. -/
def top_aisle (t : Table) : String × Nat :=
  match t with
  | [] => ("N/A", 0)
  | e :: _ => e

/-- app.py line 483: share of the `top_aisle` row in the table total. -/
def top_aisle_pct (t : Table) : ℚ :=
  if !t.isEmpty && decide (0 < tableTotal t) then
    ((top_aisle t).2 : ℚ) / (tableTotal t : ℚ) * 100
  else 0

/-- A report column: textual (`object` dtype, cells possibly NaN),
float-valued, or integer-valued. -/
inductive Column where
  | textual (cells : List (Option String))
  | numeric (cells : List (Option ℚ))
  | ints (cells : List Int)
deriving DecidableEq

/-- The three columns `load_data` normalizes (absent column = `none`);
source column names: reorder_ratio, total_orders, rec_taste_score. -/
structure Frame where
  reorderRatioCol : Option Column
  totalOrdersCol : Option Column
  tasteScoreCol : Option Column
deriving DecidableEq

/-- Model of Python `float(s)` on plain decimal literals: optional sign,
digits with at most one dot, at least one digit, surrounding whitespace
stripped.  Scientific forms and `inf`/`nan` lie outside the fragment the
dashboard's cells exercise. -/
def floatCore (r : List Char) : Option ℚ :=
  if !r.isEmpty && r.all isNumChar &&
     decide (r.countP (fun c => c == '.') ≤ 1) && r.any Char.isDigit then
    some (floatVal r)
  else none

/-- Python `float` applied to a whole string (sign handling). -/
def pythonFloat (s : String) : Option ℚ :=
  match pyStrip s.data with
  | '-' :: r => (floatCore r).map (fun q => -q)
  | '+' :: r => floatCore r
  | r => floatCore r

/-- `astype(int)` on a float value truncates toward zero. -/
def truncQ (q : ℚ) : Int := Int.tdiv q.num q.den

/-- One cell of `df['reorder_ratio'].str.replace('%', '').astype(float)`
(app.py line 137): every `%` removed, then `float`; an unparseable cell
raises (`.error`), a NaN cell stays NaN. -/
def reorderCell (c : Option String) : Except Unit (Option ℚ) :=
  match c with
  | none => .ok none
  | some s =>
    match pythonFloat ⟨s.data.filter (fun ch => !(ch == '%'))⟩ with
    | some q => .ok (some q)
    | none => .error ()

/-- One cell of `df['rec_taste_score'].str.replace('점', '').astype(float)`
(app.py line 141). -/
def tasteCell (c : Option String) : Except Unit (Option ℚ) :=
  match c with
  | none => .ok none
  | some s =>
    match pythonFloat ⟨s.data.filter (fun ch => !(ch == '점'))⟩ with
    | some q => .ok (some q)
    | none => .error ()

/-- One cell of
`pd.to_numeric(df['total_orders'], errors='coerce').fillna(0).astype(int)`
(app.py line 139): unparseable or missing cells coerce to NaN and are
filled with `0`; this path never raises. -/
def totalCell (c : Option String) : Int :=
  match c with
  | none => 0
  | some s =>
    match pythonFloat s with
    | some q => truncQ q
    | none => 0

/-- Eager cell-wise evaluation over a column where any raising cell
aborts the whole `astype(float)` call. -/
def mapExcept (f : α → Except Unit β) : List α → Except Unit (List β)
  | [] => .ok []
  | a :: as =>
    match f a, mapExcept f as with
    | .ok b, .ok bs => .ok (b :: bs)
    | _, _ => .error ()

/-- app.py lines 136-137: the reorder-ratio column is rewritten only when
present and textual; otherwise it passes through unchanged. -/
def normReorder (col : Option Column) : Except Unit (Option Column) :=
  match col with
  | some (.textual cells) =>
    match mapExcept reorderCell cells with
    | .ok qs => .ok (some (.numeric qs))
    | .error e => .error e
  | other => .ok other

/-- app.py lines 138-139: the total-orders column is coerced when present
and textual; otherwise it passes through unchanged. -/
def normTotal (col : Option Column) : Option Column :=
  match col with
  | some (.textual cells) => some (.ints (cells.map totalCell))
  | other => other

/-- app.py lines 140-141: same normalization shape as the ratio column. -/
def normTaste (col : Option Column) : Except Unit (Option Column) :=
  match col with
  | some (.textual cells) =>
    match mapExcept tasteCell cells with
    | .ok qs => .ok (some (.numeric qs))
    | .error e => .error e
  | other => .ok other

/-- app.py lines 129-142.  `none` input models the `FileNotFoundError`
path, which returns `None` after reporting the error (`.ok none`); a cell
that `astype(float)` cannot parse raises past `load_data` (`.error ()`),
since the `try` block only guards `pd.read_csv`. -/
def load_data (file : Option Frame) : Except Unit (Option Frame) :=
  match file with
  | none => .ok none
  | some df =>
    match normReorder df.reorderRatioCol, normTaste df.tasteScoreCol with
    | .ok r, .ok ts => .ok (some ⟨r, normTotal df.totalOrdersCol, ts⟩)
    | _, _ => .error ()

/-- The claim's notion of a malformed clause: no `:` separator, or no
digit anywhere in the remainder after the first `:`. -/
def badClause (cl : List Char) : Bool :=
  !cl.contains ':' ||
    (((cl.dropWhile (fun c => !(c == ':'))).tail.filter Char.isDigit).isEmpty)

/-- Encoding of a well-formed frequency list from (label, digit-string)
pairs, the shape `"label:count;label:count;..."`. -/
def encodePairs (ps : List (String × List Char)) : List Char :=
  joinSep ';' (ps.map (fun p => p.1.data ++ ':' :: p.2))

theorem split_ne_nil (sep : Char) (l : List Char) : splitOnChar sep l ≠ [] := by
  induction l with
  | nil => simp [splitOnChar]
  | cons c rest ih =>
    simp only [splitOnChar]
    split
    · simp
    · split
      · next heq => exact absurd heq ih
      · simp

theorem split_nosep (sep : Char) (l : List Char) (h : sep ∉ l) :
    splitOnChar sep l = [l] := by
  induction l with
  | nil => rfl
  | cons c rest ih =>
    have hc : (c == sep) = false :=
      beq_eq_false_iff_ne.mpr (fun e => h (e ▸ List.mem_cons_self c rest))
    have hrest := ih (fun hm => h (List.mem_cons_of_mem _ hm))
    simp [splitOnChar, hc, hrest]

theorem join_split (sep : Char) (l : List Char) :
    joinSep sep (splitOnChar sep l) = l := by
  induction l with
  | nil => rfl
  | cons c rest ih =>
    simp only [splitOnChar]
    rcases hr : splitOnChar sep rest with _ | ⟨h2, t2⟩
    · exact absurd hr (split_ne_nil sep rest)
    · rw [hr] at ih
      by_cases hc : (c == sep) = true
      · rw [if_pos hc]
        show sep :: joinSep sep (h2 :: t2) = c :: rest
        rw [ih, beq_iff_eq.mp hc]
      · rw [if_neg (by simp [hc])]
        cases t2 with
        | nil =>
          show c :: h2 = c :: rest
          rw [show h2 = rest from ih]
        | cons h3 t3 =>
          show (c :: h2) ++ sep :: joinSep sep (h3 :: t3) = c :: rest
          rw [List.cons_append]
          exact congrArg (c :: ·) ih

theorem split_head_nosep (sep : Char) (l : List Char) :
    ∀ h t, splitOnChar sep l = h :: t → sep ∉ h := by
  induction l with
  | nil =>
    intro h t e
    cases e
    simp
  | cons c rest ih =>
    intro h t e
    simp only [splitOnChar] at e
    by_cases hc : (c == sep) = true
    · rw [if_pos hc] at e
      cases e
      simp
    · rw [if_neg (by simp [hc])] at e
      rcases hr : splitOnChar sep rest with _ | ⟨h2, t2⟩
      · exact absurd hr (split_ne_nil sep rest)
      · rw [hr] at e
        cases e
        intro hm
        rcases List.mem_cons.mp hm with e2 | hm2
        · exact hc (beq_iff_eq.mpr e2.symm)
        · exact ih h2 _ hr hm2

theorem split_prepend (sep : Char) (a b : List Char) (ha : sep ∉ a) :
    splitOnChar sep (a ++ sep :: b) = a :: splitOnChar sep b := by
  induction a with
  | nil =>
    show splitOnChar sep (sep :: b) = [] :: splitOnChar sep b
    simp [splitOnChar]
  | cons c a2 ih =>
    have hc : (c == sep) = false :=
      beq_eq_false_iff_ne.mpr (fun e => ha (e ▸ List.mem_cons_self c a2))
    have ha2 : sep ∉ a2 := fun hm => ha (List.mem_cons_of_mem _ hm)
    show splitOnChar sep (c :: (a2 ++ sep :: b)) = (c :: a2) :: splitOnChar sep b
    simp only [splitOnChar, hc]
    rw [if_neg (by simp), ih ha2]

theorem split_join (sep : Char) (parts : List (List Char)) (hne : parts ≠ [])
    (h : ∀ x ∈ parts, sep ∉ x) : splitOnChar sep (joinSep sep parts) = parts := by
  induction parts with
  | nil => exact absurd rfl hne
  | cons x parts2 ih =>
    cases parts2 with
    | nil => exact split_nosep sep x (h x (List.mem_cons_self x []))
    | cons y t =>
      show splitOnChar sep (x ++ sep :: joinSep sep (y :: t)) = x :: y :: t
      rw [split_prepend sep x _ (h x (List.mem_cons_self x _)),
        ih (by simp) (fun z hz => h z (List.mem_cons_of_mem _ hz))]

theorem mapOption_none_of_mem (f : α → Option β) (l : List α) (x : α)
    (hx : x ∈ l) (hf : f x = none) : mapOption f l = none := by
  induction l with
  | nil => cases hx
  | cons a as ih =>
    rcases List.mem_cons.mp hx with e | hm
    · subst e
      simp only [mapOption, hf]
    · simp only [mapOption, ih hm]
      cases f a <;> rfl

theorem mapOption_map (f : α → Option γ) (g : β → α) (h : β → γ) (l : List β)
    (hl : ∀ x ∈ l, f (g x) = some (h x)) :
    mapOption f (l.map g) = some (l.map h) := by
  induction l with
  | nil => rfl
  | cons a as ih =>
    show mapOption f (g a :: as.map g) = some (h a :: as.map h)
    simp only [mapOption, hl a (List.mem_cons_self a as),
      ih (fun x hx => hl x (List.mem_cons_of_mem _ hx))]

/-- Splitting any list containing the separator isolates the text before
the first separator occurrence from the remainder after it. -/
theorem first_sep_decomp (sep : Char) (cl : List Char) (h : sep ∈ cl) :
    cl = cl.takeWhile (fun c => !(c == sep)) ++
      sep :: (cl.dropWhile (fun c => !(c == sep))).tail := by
  induction cl with
  | nil => cases h
  | cons c rest ih =>
    by_cases hc : (c == sep) = true
    · have e : c = sep := beq_iff_eq.mp hc
      simp [List.takeWhile, List.dropWhile, hc, e]
    · have hm : sep ∈ rest := by
        rcases List.mem_cons.mp h with e | hm
        · exact absurd (beq_iff_eq.mpr e.symm) hc
        · exact hm
      have := ih hm
      simp only [List.takeWhile, List.dropWhile, hc]
      show c :: rest = c :: (_ ++ sep :: _)
      exact congrArg (c :: ·) this

theorem mem_takeWhile_not_sep (sep : Char) (cl : List Char) :
    sep ∉ cl.takeWhile (fun c => !(c == sep)) := by
  intro hm
  have := List.takeWhile_subset (l := cl) (p := fun c => !(c == sep)) hm
  have hp := List.mem_takeWhile_imp hm
  simp at hp

/-- A clause the claim calls malformed makes `parseClause` raise. -/
theorem parseClause_none_of_bad (cl : List Char) (hb : badClause cl = true) :
    parseClause cl = none := by
  by_cases hmem : ':' ∈ cl
  · -- the clause has a separator, so the remainder after it has no digits
    have hbad2 : ':' ∉ cl ∨
        ∀ a ∈ (cl.dropWhile (fun c => !(c == ':'))).tail, a.isDigit = false := by
      simpa [badClause] using hb
    have hnd : (cl.dropWhile (fun c => !(c == ':'))).tail.filter
        Char.isDigit = [] := by
      rcases hbad2 with h | h
      · exact absurd hmem h
      · exact List.filter_eq_nil_iff.mpr (fun a ha => by simp [h a ha])
    have hdec : cl = cl.takeWhile (fun c => !(c == ':')) ++
        ':' :: (cl.dropWhile (fun c => !(c == ':'))).tail :=
      first_sep_decomp ':' cl hmem
    have hsplit : splitOnChar ':' cl =
        cl.takeWhile (fun c => !(c == ':')) ::
          splitOnChar ':' ((cl.dropWhile (fun c => !(c == ':'))).tail) := by
      conv_lhs => rw [hdec]
      exact split_prepend ':' _ _ (mem_takeWhile_not_sep ':' cl)
    rcases hTs : splitOnChar ':' ((cl.dropWhile (fun c => !(c == ':'))).tail)
        with _ | ⟨f1, rest⟩
    · exact absurd hTs (split_ne_nil ':' _)
    · have hTjoin : joinSep ':' (f1 :: rest) =
          (cl.dropWhile (fun c => !(c == ':'))).tail := by
        rw [← hTs]
        exact join_split ':' _
      have hf1 : f1.filter Char.isDigit = [] := by
        cases rest with
        | nil =>
          rw [show f1 = (cl.dropWhile (fun c => !(c == ':'))).tail from hTjoin]
          exact hnd
        | cons h3 t3 =>
          have h5 : (f1 ++ ':' :: joinSep ':' (h3 :: t3)).filter
              Char.isDigit = [] := by
            rw [show f1 ++ ':' :: joinSep ':' (h3 :: t3) =
              (cl.dropWhile (fun c => !(c == ':'))).tail from hTjoin]
            exact hnd
          rw [List.filter_append] at h5
          exact (List.append_eq_nil.mp h5).1
      simp [parseClause, hsplit, hTs, hf1]
  · -- no separator: `item[1]` raises IndexError
    have h1 : splitOnChar ':' cl = [cl] := split_nosep ':' cl hmem
    simp [parseClause, h1]

/-- C1: if any clause of the frequency-list input lacks a `:` separator
or its count portion (the remainder after the first `:`) contains no
digit, `parse_key_value_string` returns the completely empty table, never
a partial one; `"a:xx;b:yy"` gives the empty table and `"a:x2x;b:3"` the
two-row table `a=2, b=3` in input order. -/
theorem parse_kv_all_or_nothing :
    (∀ s : String,
      (∃ cl, cl ∈ splitOnChar ';' s.data ∧ badClause cl = true) →
      parse_key_value_string (some s) = []) ∧
    parse_key_value_string (some "a:xx;b:yy") = [] ∧
    parse_key_value_string (some "a:x2x;b:3") = [("a", 2), ("b", 3)] := by
  refine ⟨?_, by decide, by decide⟩
  intro s ⟨cl, hmem, hbad⟩
  have hnone := mapOption_none_of_mem parseClause _ cl hmem
    (parseClause_none_of_bad cl hbad)
  simp [parse_key_value_string, hnone]

/-- Witness for C1: the clause `"ab"` has no `:`, so the table is empty. -/
theorem parse_kv_all_or_nothing_app : parse_key_value_string (some "ab") = [] :=
  parse_kv_all_or_nothing.1 "ab" ⟨"ab".data, by decide, by decide⟩

/-- C3, counterexample: the code splits a clause on EVERY `:` and reads
only the second field, so `"a:1:2"` parses to count `1`, not to count
`12` (the digits of the whole remainder) as the claim states. -/
theorem parse_kv_not_first_colon_split :
    parse_key_value_string (some "a:1:2") = [("a", 1)] ∧
    parse_key_value_claimed "a:1:2" = [("a", 12)] ∧
    parse_key_value_string (some "a:1:2") ≠ parse_key_value_claimed "a:1:2" := by
  refine ⟨by decide, by decide, by decide⟩

/-- C3, amended: for a single-clause input, the label is the trimmed text
before the first `:` and the count is the integer formed by the digits of
the SECOND `:`-separated field only (the text between the first `:` and
the next one, when a second `:` exists). -/
theorem parse_kv_second_field_count (c f0 f1 : List Char)
    (rest : List (List Char)) (hns : ';' ∉ c)
    (hsplit : splitOnChar ':' c = f0 :: f1 :: rest)
    (hd : f1.filter Char.isDigit ≠ []) :
    parse_key_value_string (some ⟨c⟩) =
      [(⟨pyStrip f0⟩, digitsVal (f1.filter Char.isDigit))] := by
  have hone : splitOnChar ';' c = [c] := split_nosep ';' c hns
  have hclause : parseClause c =
      some (⟨pyStrip f0⟩, digitsVal (f1.filter Char.isDigit)) := by
    simp [parseClause, hsplit, List.isEmpty_iff, hd]
  show parse_key_value_string (some (String.mk c)) = _
  simp [parse_key_value_string, hone, mapOption, hclause]

/-- Witness for C3's amended statement at the clause `"a:1:2"`. -/
theorem parse_kv_second_field_count_app :
    parse_key_value_string (some "a:1:2") = [("a", 1)] := by
  have h := parse_kv_second_field_count "a:1:2".data ['a'] ['1'] [['2']]
    (by decide) (by decide) (by decide)
  simpa using h

/-- C5: a well-formed `"label:count;..."` string (labels free of the two
separators, counts written as nonempty digit strings) parses to exactly
the written (trimmed label, decimal value) pairs in input order. -/
theorem parse_kv_wellformed_exact (ps : List (String × List Char))
    (hne : ps ≠ [])
    (hlab : ∀ p ∈ ps, ':' ∉ p.1.data ∧ ';' ∉ p.1.data)
    (hcnt : ∀ p ∈ ps, p.2 ≠ [] ∧ ∀ ch ∈ p.2, ch.isDigit = true) :
    parse_key_value_string (some ⟨encodePairs ps⟩) =
      ps.map (fun p => (⟨pyStrip p.1.data⟩, digitsVal p.2)) := by
  have hsplit : splitOnChar ';' (encodePairs ps) =
      ps.map (fun p => p.1.data ++ ':' :: p.2) := by
    refine split_join ';' _ (by simpa using hne) ?_
    intro x hx
    rcases List.mem_map.mp hx with ⟨p, hp, e⟩
    subst e
    intro hm
    rcases List.mem_append.mp hm with h | h
    · exact (hlab p hp).2 h
    · rcases List.mem_cons.mp h with e | h
      · cases e
      · have := (hcnt p hp).2 ';' h
        simp at this
  have hcl : ∀ p ∈ ps, parseClause (p.1.data ++ ':' :: p.2) =
      some (⟨pyStrip p.1.data⟩, digitsVal p.2) := by
    intro p hp
    have h1 : splitOnChar ':' (p.1.data ++ ':' :: p.2) =
        p.1.data :: splitOnChar ':' p.2 :=
      split_prepend ':' _ _ (hlab p hp).1
    have h2 : splitOnChar ':' p.2 = [p.2] := by
      refine split_nosep ':' p.2 (fun hm => ?_)
      have := (hcnt p hp).2 ':' hm
      simp at this
    have h3 : p.2.filter Char.isDigit = p.2 :=
      List.filter_eq_self.mpr (hcnt p hp).2
    simp [parseClause, h1, h2, h3, List.isEmpty_iff, (hcnt p hp).1]
  show parse_key_value_string (some (String.mk (encodePairs ps))) = _
  simp only [parse_key_value_string, hsplit]
  rw [mapOption_map parseClause _ _ ps hcl]

/-- Witness for C5 at `"a:3;b:5;c:1"`. -/
theorem parse_kv_wellformed_exact_app :
    parse_key_value_string (some "a:3;b:5;c:1") = [("a", 3), ("b", 5), ("c", 1)] := by
  have h := parse_kv_wellformed_exact
    [("a", ['3']), ("b", ['5']), ("c", ['1'])] (by decide)
    (by decide) (by decide)
  simpa using h

/-- Well-formedness of a matched average group: Python `float` accepts it. -/
def okFloatGroup : Option (List Char) → Bool
  | none => true
  | some g => validFloat g

/-- Well-formedness of a matched min/max group: Python `int` accepts it. -/
def okIntGroup : Option (List Char) → Bool
  | none => true
  | some g => g.all Char.isDigit

theorem floatOfGroup_ok (og : Option (List Char)) (h : okFloatGroup og = true) :
    ∃ a : ℚ, floatOfGroup og = some a ∧ (og = none → a = 0) := by
  cases og with
  | none => exact ⟨0, rfl, fun _ => rfl⟩
  | some g =>
    refine ⟨floatVal g, ?_, fun e => by cases e⟩
    simp [floatOfGroup, show validFloat g = true from h]

theorem natOfGroup_ok (og : Option (List Char)) (h : okIntGroup og = true) :
    ∃ a : Nat, natOfGroup og = some a ∧ (og = none → a = 0) := by
  cases og with
  | none => exact ⟨0, rfl, fun _ => rfl⟩
  | some g =>
    refine ⟨digitsVal g, ?_, fun e => by cases e⟩
    simp [natOfGroup, show g.all Char.isDigit = true from h]

/-- C2, counterexample: on the input `"최소 1.5"` the matched minimum
group is `"1.5"`, and Python `int("1.5")` raises a `ValueError` that
escapes `parse_stats_string` (modelled by `none`); the function is not
total, contrary to the claim. -/
theorem parse_stats_raises_on_fractional_min :
    parse_stats_string (some "최소 1.5") = none := by decide

/-- C2, amended: `parse_stats_string` returns a `{average, minimum,
maximum, unit}` record for every input whose MATCHED numeric tokens are
well-formed (the average group a valid float literal, the min/max groups
all digits); any absent numeric token defaults to 0 and an absent unit to
the empty string.  Inputs with a matched but malformed token (such as a
fractional minimum) raise instead. -/
theorem parse_stats_conditional_total (s : String)
    (ha : okFloatGroup (avgGroup s.data) = true)
    (hmn : okIntGroup (minGroup s.data) = true)
    (hmx : okIntGroup (maxGroup s.data) = true) :
    ∃ r : RangeStats, parse_stats_string (some s) = some r ∧
      (avgGroup s.data = none → r.average = 0) ∧
      (minGroup s.data = none → r.minimum = 0) ∧
      (maxGroup s.data = none → r.maximum = 0) ∧
      (lastToken s.data = none → r.unit = "") := by
  obtain ⟨a, ha1, ha0⟩ := floatOfGroup_ok _ ha
  obtain ⟨mn, hmn1, hmn0⟩ := natOfGroup_ok _ hmn
  obtain ⟨mx, hmx1, hmx0⟩ := natOfGroup_ok _ hmx
  refine ⟨⟨a, mn, mx, unitOfString s.data⟩, ?_, fun e => ha0 e,
    fun e => hmn0 e, fun e => hmx0 e, fun e => by simp [unitOfString, e]⟩
  simp [parse_stats_string, ha1, hmn1, hmx1]

/-- Witness for C2's amended statement at a fully well-formed sentence. -/
theorem parse_stats_conditional_total_app :
    (parse_stats_string (some "평균 12.3, 최소 1, 최대 30 일")).isSome = true := by
  obtain ⟨r, hr, -, -, -, -⟩ := parse_stats_conditional_total
    "평균 12.3, 최소 1, 최대 30 일" (by decide) (by decide) (by decide)
  rw [hr]
  rfl

/-- C6: the missing-value sentinels — NaN and the empty string — produce
the empty table from `parse_key_value_string` and the zero-filled record
from `parse_stats_string`, with no exception on either path. -/
theorem parse_missing_sentinel_defaults :
    parse_key_value_string none = [] ∧
    parse_key_value_string (some "") = [] ∧
    parse_stats_string none = some ⟨0, 0, 0, ""⟩ ∧
    parse_stats_string (some "") = some ⟨0, 0, 0, ""⟩ := by
  refine ⟨rfl, by decide, by decide, by decide⟩

theorem firstMax_isSome (e : String × Nat) (rest : Table) :
    ∃ m, firstMax (e :: rest) = some m := by
  simp only [firstMax]
  cases firstMax rest with
  | none => exact ⟨e, rfl⟩
  | some m =>
    by_cases h : e.2 < m.2
    · exact ⟨m, by simp [h]⟩
    · exact ⟨e, by simp [h]⟩

theorem firstMax_mem : ∀ (t : Table) m, firstMax t = some m → m ∈ t := by
  intro t
  induction t with
  | nil => intro m h; cases h
  | cons e rest ih =>
    intro m h
    simp only [firstMax] at h
    split at h
    · cases h
      exact List.mem_cons_self _ _
    · rename_i m2 heq
      by_cases hlt : e.2 < m2.2
      · rw [if_pos hlt] at h
        cases h
        exact List.mem_cons_of_mem _ (ih _ heq)
      · rw [if_neg hlt] at h
        cases h
        exact List.mem_cons_self _ _

theorem firstMax_none (t : Table) (h : firstMax t = none) : t = [] := by
  cases t with
  | nil => rfl
  | cons e rest =>
    obtain ⟨m, hm⟩ := firstMax_isSome e rest
    rw [hm] at h
    cases h

theorem firstMax_ub : ∀ (t : Table) m, firstMax t = some m →
    ∀ x ∈ t, x.2 ≤ m.2 := by
  intro t
  induction t with
  | nil => intro m h; cases h
  | cons e rest ih =>
    intro m h x hx
    simp only [firstMax] at h
    split at h
    · rename_i heq
      cases h
      have hrest := firstMax_none rest heq
      subst hrest
      rcases List.mem_cons.mp hx with e2 | h2
      · rw [e2]
      · cases h2
    · rename_i m2 heq
      by_cases hlt : e.2 < m2.2
      · rw [if_pos hlt] at h
        cases h
        rcases List.mem_cons.mp hx with e2 | h2
        · rw [e2]
          exact Nat.le_of_lt hlt
        · exact ih _ heq x h2
      · rw [if_neg hlt] at h
        cases h
        rcases List.mem_cons.mp hx with e2 | h2
        · rw [e2]
        · exact Nat.le_trans (ih m2 heq x h2) (Nat.le_of_not_lt hlt)

theorem find_of_agree (p q : α → Bool) : ∀ l : List α,
    (∀ x ∈ l, p x = q x) → l.find? p = l.find? q := by
  intro l
  induction l with
  | nil => intro _; rfl
  | cons a as ih =>
    intro h
    have ha := h a (List.mem_cons_self a as)
    by_cases hp : p a = true
    · rw [List.find?_cons_of_pos as hp, List.find?_cons_of_pos as (ha ▸ hp)]
    · rw [List.find?_cons_of_neg as hp,
        List.find?_cons_of_neg as (fun hq => hp (by rw [ha]; exact hq))]
      exact ih (fun x hx => h x (List.mem_cons_of_mem _ hx))

theorem firstMax_find : ∀ (t : Table) m, firstMax t = some m →
    List.find? (isPeak t) t = some m := by
  intro t
  induction t with
  | nil => intro m h; cases h
  | cons e rest ih =>
    intro m h
    simp only [firstMax] at h
    split at h
    · rename_i heq
      cases h
      have hrest := firstMax_none rest heq
      subst hrest
      have hpe : isPeak [e] e = true := by simp [isPeak]
      rw [List.find?_cons_of_pos _ hpe]
    · rename_i m2 heq
      by_cases hlt : e.2 < m2.2
      · rw [if_pos hlt] at h
        cases h
        have hpe : ¬ isPeak (e :: rest) e = true := by
          intro hall
          have := List.all_eq_true.mp hall m
            (List.mem_cons_of_mem _ (firstMax_mem rest m heq))
          simp only [decide_eq_true_eq] at this
          exact absurd hlt (Nat.not_lt.mpr this)
        have hagree : ∀ x ∈ rest, isPeak (e :: rest) x = isPeak rest x := by
          intro x hx
          by_cases hq : isPeak rest x = true
          · have hx2 : m.2 ≤ x.2 := by
              have := List.all_eq_true.mp hq m (firstMax_mem rest m heq)
              simpa using this
            have hex : e.2 ≤ x.2 := Nat.le_of_lt (Nat.lt_of_lt_of_le hlt hx2)
            have hpx : isPeak (e :: rest) x = true := by
              simp only [isPeak, List.all_eq_true]
              intro y hy
              rcases List.mem_cons.mp hy with e2 | hy2
              · rw [e2]; simpa using hex
              · exact List.all_eq_true.mp hq y hy2
            rw [hpx, hq]
          · have hpx : ¬ isPeak (e :: rest) x = true := by
              intro hall
              refine hq ?_
              simp only [isPeak, List.all_eq_true] at hall ⊢
              exact fun y hy => hall y (List.mem_cons_of_mem _ hy)
            rw [Bool.not_eq_true] at hpx hq
            rw [hpx, hq]
        rw [List.find?_cons_of_neg _ hpe, find_of_agree _ _ rest hagree]
        exact ih m heq
      · rw [if_neg hlt] at h
        cases h
        have hpe : isPeak (e :: rest) e = true := by
          simp only [isPeak, List.all_eq_true]
          intro y hy
          rcases List.mem_cons.mp hy with e2 | hy2
          · rw [e2]; simp
          · have h2 := Nat.le_trans (firstMax_ub rest m2 heq y hy2)
              (Nat.le_of_not_lt hlt)
            simpa using h2
        rw [List.find?_cons_of_pos _ hpe]

/-- C7: on a non-empty table, the aggregator's peak entry — used for both
the peak-day and peak-hour KPIs — is the first pair of maximal count in
table order (`List.find?` of the is-maximal predicate); both KPIs share
the same computation, which is a pure function and hence returns the same
entry on every call. -/
theorem peak_entry_first_max (t : Table) (hne : t ≠ []) :
    List.find? (isPeak t) t = some (max_dow t) ∧
    max_dow t ∈ t ∧ max_hour t = max_dow t := by
  cases t with
  | nil => exact absurd rfl hne
  | cons e rest =>
    obtain ⟨m, hm⟩ := firstMax_isSome e rest
    have hd : max_dow (e :: rest) = m := by simp [max_dow, hm]
    refine ⟨?_, ?_, rfl⟩
    · rw [hd]
      exact firstMax_find _ m hm
    · rw [hd]
      exact firstMax_mem _ m hm

/-- Witness for C7 on a table with a tie at the maximal count 7. -/
theorem peak_entry_first_max_app :
    List.find? (isPeak [("a", 3), ("b", 7), ("c", 7)])
      [("a", 3), ("b", 7), ("c", 7)] = some ("b", 7) := by
  have h := peak_entry_first_max [("a", 3), ("b", 7), ("c", 7)] (by decide)
  rw [h.1, show max_dow [("a", 3), ("b", 7), ("c", 7)] = ("b", 7) from by decide]

theorem filter_label_unique : ∀ (t : Table) (l : String) (c : Nat),
    (l, c) ∈ t → (t.map Prod.fst).Nodup →
    t.filter (fun p => p.1 == l) = [(l, c)] := by
  intro t
  induction t with
  | nil => intro l c h _; cases h
  | cons a rest ih =>
    intro l c hm hnd
    have hnd2 : a.1 ∉ rest.map Prod.fst ∧ (rest.map Prod.fst).Nodup := by
      simpa [List.nodup_cons] using hnd
    rcases List.mem_cons.mp hm with e | hmr
    · have e2 : a = (l, c) := e.symm
      subst e2
      have hrest : rest.filter (fun p => p.1 == l) = [] := by
        refine List.filter_eq_nil_iff.mpr (fun p hp hpl => ?_)
        have hpl2 : p.1 = l := by simpa using hpl
        have hl : l ∈ rest.map Prod.fst := by
          rw [← hpl2]
          exact List.mem_map_of_mem Prod.fst hp
        exact hnd2.1 hl
      rw [List.filter_cons, if_pos (by simp), hrest]
    · have hne : ((a.1 == l) : Bool) = false := by
        refine beq_eq_false_iff_ne.mpr (fun e2 => ?_)
        refine hnd2.1 ?_
        rw [e2]
        exact List.mem_map_of_mem Prod.fst hmr
      rw [List.filter_cons, if_neg (by simp [hne])]
      exact ih l c hmr hnd2.2

/-- C8: the produce share is the count of the `produce` row divided by the
table's total count, as a percentage; it is 0 on the empty table, when no
row is labelled `produce`, or when the total is 0, and the division is
reached only under the positive-total guard. -/
theorem produce_share_spec (t : Table) :
    (t = [] → produce_pct t = 0) ∧
    ((∀ p ∈ t, p.1 ≠ "produce") → produce_pct t = 0) ∧
    (tableTotal t = 0 → produce_pct t = 0) ∧
    (∀ c : Nat, ("produce", c) ∈ t → (t.map Prod.fst).Nodup →
      0 < tableTotal t →
      produce_pct t = (c : ℚ) / (tableTotal t : ℚ) * 100) := by
  refine ⟨?_, ?_, ?_, ?_⟩
  · intro h
    subst h
    rfl
  · intro h
    have hany : (t.any (fun p => p.1 == "produce")) = false := by
      rw [List.any_eq_false]
      intro p hp
      simpa using h p hp
    simp [produce_pct, hany]
  · intro h
    simp [produce_pct, h]
  · intro c hm hnd hpos
    have hne2 : t.isEmpty = false := by
      cases t with
      | nil => cases hm
      | cons a r => rfl
    have hany : t.any (fun p => p.1 == "produce") = true :=
      List.any_eq_true.mpr ⟨("produce", c), hm, by simp⟩
    have hsum : produceSum t = c := by
      unfold produceSum
      rw [filter_label_unique t "produce" c hm hnd]
      simp
    have hcond : (!t.isEmpty && t.any (fun p => p.1 == "produce") &&
        decide (0 < tableTotal t)) = true := by
      rw [hne2, hany]
      simp [hpos]
    unfold produce_pct
    rw [if_pos hcond, hsum]

/-- Witness for C8: a two-row department table where produce holds 1 of 4. -/
theorem produce_share_spec_app :
    produce_pct [("produce", 1), ("x", 3)] = 25 := by
  have h := (produce_share_spec [("produce", 1), ("x", 3)]).2.2.2 1
    (by decide) (by decide) (by decide)
  rw [h, show tableTotal [("produce", 1), ("x", 3)] = 4 from by decide]
  norm_num

/-- C4 (code bug): on the aisle cell `"x:1;y:5"` the KPI code's `iloc[0]`
picks the FIRST parsed row `("x", 1)`, although the highest-count entry —
which both the claim and the code's own comment (`가장 빈도가 높은 통로`)
call for — is `("y", 5)`; the displayed share is then 100/6 percent
instead of 500/6. -/
theorem top_aisle_takes_first_row_not_max :
    top_aisle (parse_key_value_string (some "x:1;y:5")) = ("x", 1) ∧
    List.find? (isPeak (parse_key_value_string (some "x:1;y:5")))
      (parse_key_value_string (some "x:1;y:5")) = some ("y", 5) ∧
    top_aisle (parse_key_value_string (some "x:1;y:5")) ≠ ("y", 5) ∧
    top_aisle_pct (parse_key_value_string (some "x:1;y:5")) = 100 / 6 := by
  refine ⟨by decide, by decide, by decide, ?_⟩
  rw [show parse_key_value_string (some "x:1;y:5") = [("x", 1), ("y", 5)]
    from by decide]
  show ((1 : Nat) : ℚ) / ((6 : Nat) : ℚ) * 100 = 100 / 6
  norm_num

theorem floatVal_452 : floatVal ['4', '5', '.', '2'] = 226 / 5 := by
  show (digitsVal ['4', '5'] : ℚ) + (digitsVal ['2'] : ℚ) / (10 : ℚ) ^ (1 : Nat)
    = 226 / 5
  rw [show digitsVal ['4', '5'] = 45 from by decide,
    show digitsVal ['2'] = 2 from by decide]
  norm_num

theorem floatVal_12 : floatVal ['1', '2'] = 12 := by
  show (digitsVal ['1', '2'] : ℚ) +
    (digitsVal ([] : List Char) : ℚ) / (10 : ℚ) ^ (0 : Nat) = 12
  rw [show digitsVal ['1', '2'] = 12 from by decide,
    show digitsVal ([] : List Char) = 0 from by decide]
  norm_num

theorem truncQ_12 : truncQ (12 : ℚ) = 12 := by decide

/-- C9: `load_data` turns the textual ratio cell `"45.2%"` into the
number 45.2, the textual order-count cell `"12"` into the integer 12, and
missing or unparseable order-count cells into 0, while absent or already
numeric columns pass through unchanged. -/
theorem load_data_normalization :
    load_data (some ⟨some (.textual [some "45.2%"]),
        some (.textual [some "12", none, some "abc"]), none⟩)
      = .ok (some ⟨some (.numeric [some (226 / 5 : ℚ)]),
          some (.ints [12, 0, 0]), none⟩) ∧
    (∀ cells, normReorder (some (.numeric cells)) = .ok (some (.numeric cells))) ∧
    normReorder none = .ok none ∧
    (∀ cells, normTotal (some (.numeric cells)) = some (.numeric cells)) ∧
    normTotal none = none ∧
    (∀ cells, normTaste (some (.ints cells)) = .ok (some (.ints cells))) := by
  refine ⟨?_, fun cells => rfl, rfl, fun cells => rfl, rfl, fun cells => rfl⟩
  have base : load_data (some ⟨some (.textual [some "45.2%"]),
      some (.textual [some "12", none, some "abc"]), none⟩)
    = .ok (some ⟨some (.numeric [some (floatVal ['4', '5', '.', '2'])]),
        some (.ints [truncQ (floatVal ['1', '2']), 0, 0]), none⟩) := rfl
  rw [base, floatVal_452, floatVal_12, truncQ_12]

/-- Witness-style instantiation for C9's pass-through clauses at concrete
numeric columns. -/
theorem load_data_normalization_app :
    normReorder (some (.numeric [some 1])) = .ok (some (.numeric [some 1])) ∧
    normTotal (some (.numeric [some 1])) = some (.numeric [some 1]) := by
  exact ⟨load_data_normalization.2.1 [some 1], load_data_normalization.2.2.2.1 [some 1]⟩

/-- C10: a textual ratio cell that is no float after `%`-removal (here
`"abc"`) makes `load_data` raise — the `try` only guards the file read —
while the same text in the order-count column is coerced to 0; the claimed
asymmetry between the two columns is real. -/
theorem load_data_raises_on_bad_ratio_cell :
    load_data (some ⟨some (.textual [some "abc"]),
        some (.textual [some "abc"]), none⟩) = .error () ∧
    totalCell (some "abc") = 0 := ⟨rfl, rfl⟩

end Dashboard
